import Mathlib

/-!
Verification of the change-staging and grouped-view projection logic of the
WeekendProject repository, a shallow embedding of
`src/force-app/main/default/lwc/serialProcessSetup/serialProcessSetup.js` and
`src/force-app/main/default/lwc/processVariables/processVariables.js`.

Modelling conventions:
* JavaScript strings are Lean `String`; `localeCompare` is modelled as the
  code-point lexicographic order on `String` (the names compared by the
  component are plain ASCII identifiers).
* The `Order__c` field holds a JavaScript value that may be `undefined`/`null`,
  an integer number, `NaN` (the result of `parseInt` on malformed input), or
  the empty string (an empty edit is staged unconverted).  `OrderVal` has one
  constructor for each of these cases; `null` and `undefined` are collapsed
  because the component never distinguishes them.
* `Array.prototype.sort` is stable (ES2019); it is modelled by a stable
  insertion sort.  For inconsistent comparators ECMAScript leaves the result
  order implementation-defined; the model fixes one stable order.
* A JavaScript `Map` is modelled by an insertion-ordered association list:
  `set` overwrites the first entry with the key in place and appends fresh
  keys, exactly like `Map.prototype.set`.
* Asynchronous persist/refresh plumbing is modelled by an explicit
  `SaveOutcome` parameter and an emitted `Event` trace; toasts, persist calls
  and the wire refresh appear as events.
-/

/-- A JavaScript value stored in the `Order__c` field. -/
inductive OrderVal where
  | null
  | num (n : Int)
  | nan
  | emptyStr
deriving DecidableEq, Repr

/-- JavaScript strict inequality `a.Order__c !== b.Order__c` on the values an
`Order__c` field can hold.  `NaN !== NaN` is `true`; values of different types
are always strictly unequal. -/
def jsStrictNe : OrderVal → OrderVal → Bool
  | .nan, _ => true
  | _, .nan => true
  | .null, .null => false
  | .emptyStr, .emptyStr => false
  | .num a, .num b => a != b
  | .null, .emptyStr => true
  | .emptyStr, .null => true
  | .num _, _ => true
  | _, .num _ => true

/-- The value of the JavaScript expression `(o || 999)` used by the in-group
comparator: every falsy order value (`undefined`/`null`, `NaN`, `''`, and the
number `0`) falls back to the sentinel `999`. -/
def orFallback : OrderVal → Int
  | .num n => if n = 0 then 999 else n
  | _ => 999

/-- One configuration record of the settings table
(`Process_Setting__mdt`-shaped object handled by `serialProcessSetup.js`).
`Id` is `none` when the backend assigned no surrogate id; `rowClass` and
`statusClass` are `none` until the component derives them. -/
structure SRecord where
  Id : Option String
  Name : String
  Active__c : Bool
  Group__c : Option String
  Handler_Class__c : String
  Object__c : String
  Order__c : OrderVal
  rowClass : Option String
  statusClass : Option String
deriving DecidableEq, Repr

/-- Stable insertion of `x` into `l`: `x` goes in front of the first element
`y` with `le x y = true`.  For a total preorder this agrees with the stable
`Array.prototype.sort`. -/
def insertSorted (le : α → α → Bool) (x : α) : List α → List α
  | [] => [x]
  | y :: ys => if le x y then x :: y :: ys else y :: insertSorted le x ys

/-- Stable sort by a boolean comparator, modelling `Array.prototype.sort`. -/
def sortByLe (le : α → α → Bool) : List α → List α
  | [] => []
  | x :: xs => insertSorted le x (sortByLe le xs)

/-- Strict lexicographic order on character lists, by code point.  Together
with `strLt`/`strLe` below this models `String.prototype.localeCompare` on the
plain ASCII identifiers the component compares. -/
def lexLt : List Char → List Char → Bool
  | _, [] => false
  | [], _ :: _ => true
  | a :: as, b :: bs => if a < b then true else if b < a then false else lexLt as bs

/-- `a.localeCompare(b) < 0`, modelled as code-point lexicographic order. -/
def strLt (a b : String) : Bool := lexLt a.toList b.toList

/-- `a.localeCompare(b) <= 0`, modelled as code-point lexicographic order. -/
def strLe (a b : String) : Bool := !(strLt b a)

/-- The comparator of `processGroupedData` for records inside one group:
`if (a.Order__c !== b.Order__c) return (a.Order__c || 999) - (b.Order__c || 999);
return a.Name.localeCompare(b.Name);`, phrased as "compares less-or-equal". -/
def processLe (a b : SRecord) : Bool :=
  if jsStrictNe a.Order__c b.Order__c then
    decide (orFallback a.Order__c ≤ orFallback b.Order__c)
  else
    strLe a.Name b.Name

/-- The group name a record is filed under:
`process.Group__c || 'Ungrouped'` (absent and empty group names are falsy). -/
def groupNameOf (r : SRecord) : String :=
  match r.Group__c with
  | none => "Ungrouped"
  | some g => if g = "" then "Ungrouped" else g

/-- The per-record status class: `process.Active__c ? 'process-box
active-process' : 'process-box inactive-process'`. -/
def statusClassOf (isActive : Bool) : String :=
  if isActive then "process-box active-process" else "process-box inactive-process"

/-- The copy of a record pushed into its group:
`{ ...process, statusClass: process.Active__c ? ... : ... }`. -/
def annotate (r : SRecord) : SRecord :=
  { r with statusClass := some (statusClassOf r.Active__c) }

/-- Adding one record to the insertion-ordered group map:
`groupMap.get(groupName).push(...)` for a known group name,
`groupMap.set(groupName, [])` followed by the push for a fresh one. -/
def addToGroup : List (String × List SRecord) → SRecord → List (String × List SRecord)
  | [], r => [(groupNameOf r, [annotate r])]
  | p :: ps, r =>
      if p.1 = groupNameOf r then (p.1, p.2 ++ [annotate r]) :: ps
      else p :: addToGroup ps r

/-- The whole `groupMap` built by the `forEach` loop of `processGroupedData`. -/
def buildGroups (l : List SRecord) : List (String × List SRecord) :=
  l.foldl addToGroup []

/-- The group header style computed from the sorted members. -/
def headerOf (procs : List SRecord) : String :=
  if procs.all (fun r => r.Active__c) then "group-header active-group-header"
  else if procs.all (fun r => !r.Active__c) then "group-header inactive-group-header"
  else "group-header mixed-group-header"

/-- The `activeCount/totalCount Active` status string of a group. -/
def statusOf (procs : List SRecord) : String :=
  toString (procs.filter (fun r => r.Active__c)).length ++ "/" ++
    toString procs.length ++ " Active"

/-- One entry of the `groupedProcessData` projection. -/
structure GroupProj where
  groupName : String
  processes : List SRecord
  allActive : Bool
  headerClass : String
  statusText : String
deriving DecidableEq, Repr

/-- Building one projection entry from a `groupMap` entry: sort the members,
classify the header, render the status string. -/
def mkGroup (p : String × List SRecord) : GroupProj :=
  let sorted := sortByLe processLe p.2
  { groupName := p.1
    processes := sorted
    allActive := sorted.all (fun r => r.Active__c)
    headerClass := headerOf sorted
    statusText := statusOf sorted }

/-- The comparator sorting the groups themselves:
`(a, b) => a.groupName.localeCompare(b.groupName)` as a less-or-equal test. -/
def groupLe (a b : GroupProj) : Bool :=
  strLe a.groupName b.groupName

/-- `processGroupedData` of `serialProcessSetup.js` as a pure function of the
working set: empty input yields the empty projection, otherwise the records
are partitioned by group name, sorted inside each group, classified, and the
groups are sorted by name. -/
def processGroupedData (l : List SRecord) : List GroupProj :=
  if l.isEmpty then []
  else sortByLe groupLe ((buildGroups l).map mkGroup)

/-- The component state of `serialProcessSetup.js` that the claims mention:
the baseline, the working set, the derived projection, the staging map, and
the loading flag. -/
structure SetupState where
  originalData : List SRecord
  processData : List SRecord
  groupedProcessData : List GroupProj
  changedRecords : List (String × SRecord)
  isLoading : Bool
deriving DecidableEq, Repr

/-- `record.Id || record.Name`: the identifier falls back to the name when the
backend sent no id (or an empty one, which is falsy). -/
def jsIdOrName (id : Option String) (name : String) : String :=
  match id with
  | none => name
  | some s => if s = "" then name else s

/-- `getRowClass` of the component. -/
def getRowClass (isActive : Bool) : String :=
  if isActive then "tr active" else "tr inactive"

/-- The per-record derivation the load path applies:
`{ ...record, Id: record.Id || record.Name, rowClass: this.getRowClass(record.Active__c) }`. -/
def deriveRecord (r : SRecord) : SRecord :=
  { r with Id := some (jsIdOrName r.Id r.Name)
           rowClass := some (getRowClass r.Active__c) }

/-- The data branch of the wired `getProcessSettings` handler (`wiredProcess`):
store the raw records as baseline, derive the working copies, recompute the
projection, and clear the staging map. -/
def loadData (data : List SRecord) (st : SetupState) : SetupState :=
  { st with
    originalData := data
    processData := data.map deriveRecord
    groupedProcessData := processGroupedData (data.map deriveRecord)
    changedRecords := [] }

/-- One inline edit, typed the way the table columns deliver it: the active
column is a checkbox (boolean), every other column delivers its input string.
`Id` is not editable. -/
inductive EditField where
  | Name (v : String)
  | Active__c (v : Bool)
  | Group__c (v : String)
  | Handler_Class__c (v : String)
  | Object__c (v : String)
  | Order__c (v : String)
deriving DecidableEq, Repr

/-- Digit-prefix accumulator used by the `parseInt` model. -/
def digitsToNat (ds : List Char) : Nat :=
  ds.foldl (fun acc c => acc * 10 + (c.toNat - 48)) 0

/-- JavaScript `parseInt(s, 10)`: skip leading whitespace, read an optional
sign and the longest digit prefix; `NaN` when no digit is found. -/
def parseIntJs (s : String) : OrderVal :=
  let cs := s.toList.dropWhile
    (fun c => c = ' ' || c = '\t' || c = '\n' || c = '\r')
  match cs with
  | '-' :: rest =>
      let ds := rest.takeWhile Char.isDigit
      if ds.isEmpty then .nan else .num (-(digitsToNat ds : Int))
  | '+' :: rest =>
      let ds := rest.takeWhile Char.isDigit
      if ds.isEmpty then .nan else .num (digitsToNat ds : Int)
  | rest =>
      let ds := rest.takeWhile Char.isDigit
      if ds.isEmpty then .nan else .num (digitsToNat ds : Int)

/-- The field update one edit applies to the matched record, including the
`Order__c` coercion (`parseInt` for a non-empty input, the raw empty string
otherwise) and the `rowClass` refresh when `Active__c` changes. -/
def applyField (e : EditField) (r : SRecord) : SRecord :=
  match e with
  | .Name v => { r with Name := v }
  | .Active__c v => { r with Active__c := v, rowClass := some (getRowClass v) }
  | .Group__c v => { r with Group__c := some v }
  | .Handler_Class__c v => { r with Handler_Class__c := v }
  | .Object__c v => { r with Object__c := v }
  | .Order__c v =>
      { r with Order__c := if v = "" then OrderVal.emptyStr else parseIntJs v }

/-- `Map.prototype.set`: overwrite the entry with key `k` in place, append a
fresh key at the end. -/
def mapSet (m : List (String × SRecord)) (k : String) (v : SRecord) :
    List (String × SRecord) :=
  if m.any (fun p => p.1 = k) then
    m.map (fun p => if p.1 = k then (k, v) else p)
  else m ++ [(k, v)]

/-- The `processData.map(...)` pass of `handleTableEdit`: rebuild the working
list, and for every record whose `Id` matches call
`changedRecords.set(recordId, updatedRecord)`. -/
def editPass (rid : String) (upd : SRecord → SRecord) :
    List SRecord → List (String × SRecord) →
      List SRecord × List (String × SRecord)
  | [], m => ([], m)
  | r :: rs, m =>
      if r.Id = some rid then
        let r2 := upd r
        let res := editPass rid upd rs (mapSet m rid r2)
        (r2 :: res.1, res.2)
      else
        let res := editPass rid upd rs m
        (r :: res.1, res.2)

/-- `handleTableEdit` of the component: update the working record, stage the
full post-edit snapshot, recompute the projection. -/
def handleTableEdit (rid : String) (e : EditField) (st : SetupState) :
    SetupState :=
  let res := editPass rid (applyField e) st.processData st.changedRecords
  { st with
    processData := res.1
    changedRecords := res.2
    groupedProcessData := processGroupedData res.1 }

/-- A sequence of inline edits applied in order. -/
def applyEdits (edits : List (String × EditField)) (st : SetupState) :
    SetupState :=
  edits.foldl (fun s e => handleTableEdit e.1 e.2 s) st

/-- `get hasChanges` of the component: `changedRecords.size > 0`. -/
def hasChanges (st : SetupState) : Bool :=
  st.changedRecords.length > 0

/-- Externally visible effects: toasts, the batch persist call of the settings
table, the wire refresh, and the persist call of the process-variables
widget. -/
inductive Event where
  | toast (title message variant : String)
  | persist (records : List SRecord)
  | refresh
  | persistVars (serialEngineOn : Bool) (serialEngineTimestampIso : Option String)
deriving DecidableEq, Repr

/-- Recognizes the events that reach the persist services. -/
def isPersistEvent : Event → Bool
  | .persist _ => true
  | .persistVars _ _ => true
  | _ => false

/-- `handleCancelChanges` of the component: rebuild the working set from the
baseline exactly as the load path does, clear the staging map, recompute the
projection, toast an informational confirmation. -/
def handleCancelChanges (st : SetupState) : SetupState × List Event :=
  let pd := st.originalData.map deriveRecord
  ({ st with
      processData := pd
      changedRecords := []
      groupedProcessData := processGroupedData pd },
   [Event.toast "Info" "Changes cancelled" "info"])

/-- The resolution of one batch persist call, made explicit: success carries
the records the forced re-fetch returns, failure carries the service error
message. -/
inductive SaveOutcome where
  | success (newData : List SRecord)
  | failure (message : String)
deriving DecidableEq, Repr

/-- The synchronous start of a non-empty save: set the loading flag and issue
the batch persist call with `Array.from(changedRecords.values())`. -/
def startSave (st : SetupState) : SetupState × List Event :=
  ({ st with isLoading := true },
   [Event.persist (st.changedRecords.map (fun p => p.2))])

/-- The asynchronous tail of `handleSaveChanges`: on success toast, clear the
staging map, re-fetch the baseline and recompute; on failure toast the service
message and leave everything but the loading flag alone.  The `finally` clause
clears the loading flag on both paths. -/
def resolveSave (outcome : SaveOutcome) (st : SetupState) :
    SetupState × List Event :=
  match outcome with
  | .success newData =>
      let st1 := loadData newData { st with changedRecords := [] }
      ({ st1 with isLoading := false },
       [Event.toast "Success" "Process settings updated successfully" "success",
        Event.refresh])
  | .failure msg =>
      ({ st with isLoading := false },
       [Event.toast "Error" ("Error updating records: " ++ msg) "error"])

/-- `handleSaveChanges` of the component, with the round trip resolved by the
given outcome: an empty staging map short-circuits into an informational
toast and no persist call. -/
def handleSaveChanges (outcome : SaveOutcome) (st : SetupState) :
    SetupState × List Event :=
  if st.changedRecords.isEmpty then
    (st, [Event.toast "Info" "No changes to save" "info"])
  else
    let started := startSave st
    let resolved := resolveSave outcome started.1
    (resolved.1, started.2 ++ resolved.2)

/-- Modelled from the spec: the save control lives in the component template,
which is not part of the provided sources; per the spec the save path
"disables further saves while pending (loading flag)", so a user save click
while `isLoading` is set never reaches `handleSaveChanges`. -/
def saveButtonClick (outcome : SaveOutcome) (st : SetupState) :
    SetupState × List Event :=
  if st.isLoading then (st, [])
  else handleSaveChanges outcome st

/-- The slice of `processVariables.js` state the claims mention. -/
structure PVState where
  serialEngineOn : Bool
  editSerialEngineOn : Bool
  editSerialEngineTimestamp : String
deriving DecidableEq, Repr

/-- The timestamp conversion of `handleSave` in `processVariables.js`: an
empty (falsy) in-edit string stays `null`; otherwise, when the string has at
least 16 and fewer than 19 characters, `':00'` is appended to supply the
seconds the canonical format expects. -/
def ensureSeconds (t : String) : Option String :=
  if t = "" then none
  else if 16 ≤ t.length ∧ t.length < 19 then some (t ++ ":00")
  else some t

/-- `handleSave` of `processVariables.js`, restricted to its externally
visible effects on the success path: the persist call with the converted
timestamp, then the success toast. -/
def pvHandleSave (st : PVState) : List Event :=
  [Event.persistVars st.editSerialEngineOn
      (ensureSeconds st.editSerialEngineTimestamp),
   Event.toast "Saved" "Process variables updated" "success"]

/-- Checks that a string is a `yyyy-MM-ddTHH:mm` local date-time, the value a
`datetime-local` input produces when seconds are absent. -/
def isDateTimeLocalNoSeconds (s : String) : Bool :=
  match s.toList with
  | [y1, y2, y3, y4, s1, mo1, mo2, s2, d1, d2, t, h1, h2, c, mi1, mi2] =>
      y1.isDigit && y2.isDigit && y3.isDigit && y4.isDigit &&
      s1 = '-' && mo1.isDigit && mo2.isDigit && s2 = '-' &&
      d1.isDigit && d2.isDigit && t = 'T' &&
      h1.isDigit && h2.isDigit && c = ':' && mi1.isDigit && mi2.isDigit
  | _ => false

/-- The ordering relation claim C2 asserts for the members of a group, written
from the spec's words for comparison with the source comparator: ascending by
the numeric order field, with absent and malformed orders treated as a large
sentinel that sorts last. -/
def specOrderLe (a b : SRecord) : Bool :=
  match a.Order__c, b.Order__c with
  | .num m, .num n => decide (m ≤ n)
  | .num _, _ => true
  | _, .num _ => false
  | _, _ => true

/-- A record whose order field holds no number (absent, `NaN`, or the empty
string). -/
def nonNumericOrder (r : SRecord) : Bool :=
  match r.Order__c with
  | .num _ => false
  | _ => true

/-- The staging invariant: the working identifiers are distinct, the staged
keys are distinct, and every staged entry is exactly the working record that
carries its key. -/
def StagingInv (st : SetupState) : Prop :=
  ((st.processData.map (fun r => r.Id)).Nodup) ∧
  ((st.changedRecords.map Prod.fst).Nodup) ∧
  ∀ p ∈ st.changedRecords,
    st.processData.find? (fun r => decide (r.Id = some p.1)) = some p.2

/-! ### Concrete fixtures used by the examples, witnesses and counterexamples -/

/-- A backend record as the read service would deliver it (no derived display
fields yet). -/
def mkRec (name : String) (active : Bool) (grp : Option String)
    (ord : OrderVal) : SRecord :=
  { Id := some name, Name := name, Active__c := active, Group__c := grp,
    Handler_Class__c := "HandlerA", Object__c := "ObjectA", Order__c := ord,
    rowClass := none, statusClass := none }

/-- The spec's sort example: one group with orders `[3, null, 1, null]` and
names `[B, A, C, D]`. -/
def exOrders : List SRecord :=
  [mkRec "B" true (some "G") (.num 3),
   mkRec "A" true (some "G") .null,
   mkRec "C" true (some "G") (.num 1),
   mkRec "D" true (some "G") .null]

/-- One group holding a record with order `0` and a record with order `1`:
the comparator's `|| 999` fallback treats the `0` as falsy. -/
def cexZero : List SRecord :=
  [mkRec "A" true (some "G") (.num 0), mkRec "B" true (some "G") (.num 1)]

/-- The spec's scenario: `G1` mixed (orders 1 active and 2 inactive),
`G2` all active. -/
def exScenario : List SRecord :=
  [mkRec "P2" false (some "G1") (.num 2),
   mkRec "P3" true (some "G2") (.num 1),
   mkRec "P1" true (some "G1") (.num 1)]

/-- Fallback group value used with `List.headD` when picking a concrete group
out of a computed projection. -/
def gdefault : GroupProj := mkGroup ("", [])

/-- A component state before any load. -/
def blankState : SetupState :=
  { originalData := [], processData := [], groupedProcessData := [],
    changedRecords := [], isLoading := false }

/-- A loaded working set holding a record named `M` and a record named `Z`
whose order `1000` exceeds the `999` fallback sentinel. -/
def stMalformed : SetupState :=
  { blankState with
      processData := [mkRec "M" true (some "G") (.num 5),
                      mkRec "Z" true (some "G") (.num 1000)] }

/-! ### Generic facts about the stable sort -/

theorem perm_insertSorted (le : α → α → Bool) (x : α) (l : List α) :
    List.Perm (insertSorted le x l) (x :: l) := by
  induction l with
  | nil => exact List.Perm.refl _
  | cons y ys ih =>
      simp only [insertSorted]
      split
      · exact List.Perm.refl _
      · exact (ih.cons y).trans (List.Perm.swap x y ys)

theorem perm_sortByLe (le : α → α → Bool) (l : List α) :
    List.Perm (sortByLe le l) l := by
  induction l with
  | nil => exact List.Perm.refl _
  | cons x xs ih =>
      exact (perm_insertSorted le x (sortByLe le xs)).trans (ih.cons x)

theorem mem_of_mem_insertSorted {le : α → α → Bool} {x a : α} {l : List α}
    (h : a ∈ insertSorted le x l) : a = x ∨ a ∈ l := by
  have := (perm_insertSorted le x l).subset h
  simpa using this

theorem pairwise_insertSorted (le : α → α → Bool) (R : α → α → Prop)
    (htrans : ∀ a b c, R a b → R b c → R a c)
    (hle : ∀ a b, le a b = true → R a b)
    (hnle : ∀ a b, le a b = false → R b a) :
    ∀ (x : α) (l : List α), l.Pairwise R → (insertSorted le x l).Pairwise R := by
  intro x l
  induction l with
  | nil => intro _; simp [insertSorted]
  | cons y ys ih =>
      intro h
      rcases List.pairwise_cons.mp h with ⟨hy, hys⟩
      simp only [insertSorted]
      cases hxy : le x y with
      | true =>
          simp only [if_pos rfl]
          refine List.pairwise_cons.mpr ⟨?_, h⟩
          intro z hz
          rcases List.mem_cons.mp hz with rfl | hz
          · exact hle _ _ hxy
          · exact htrans _ _ _ (hle _ _ hxy) (hy z hz)
      | false =>
          simp only [Bool.false_eq_true, if_false]
          refine List.pairwise_cons.mpr ⟨?_, ih hys⟩
          intro z hz
          rcases mem_of_mem_insertSorted hz with rfl | hz
          · exact hnle _ _ hxy
          · exact hy z hz

theorem pairwise_sortByLe (le : α → α → Bool) (R : α → α → Prop)
    (htrans : ∀ a b c, R a b → R b c → R a c)
    (hle : ∀ a b, le a b = true → R a b)
    (hnle : ∀ a b, le a b = false → R b a) :
    ∀ l : List α, (sortByLe le l).Pairwise R := by
  intro l
  induction l with
  | nil => simp [sortByLe]
  | cons x xs ih =>
      exact pairwise_insertSorted le R htrans hle hnle x (sortByLe le xs) ih

theorem chain_insertSorted (le : α → α → Bool) (Q : α → α → Prop)
    (hle : ∀ a b, le a b = true → Q a b)
    (hnle : ∀ a b, le a b = false → Q b a) :
    ∀ (x : α) (l : List α), l.Chain' Q → (insertSorted le x l).Chain' Q := by
  intro x l
  induction l with
  | nil => intro _; simp only [insertSorted]; exact List.chain'_singleton x
  | cons y ys ih =>
      intro h
      simp only [insertSorted]
      cases hxy : le x y with
      | true =>
          simp only [if_pos rfl]
          exact List.chain'_cons.mpr ⟨hle _ _ hxy, h⟩
      | false =>
          simp only [Bool.false_eq_true, if_false]
          cases ys with
          | nil =>
              simp only [insertSorted]
              exact List.chain'_cons.mpr ⟨hnle _ _ hxy, List.chain'_singleton x⟩
          | cons z zs =>
              rcases List.chain'_cons.mp h with ⟨hyz, hzzs⟩
              have htail := ih hzzs
              simp only [insertSorted] at htail ⊢
              cases hxz : le x z with
              | true =>
                  rw [hxz] at htail
                  simp only [if_pos rfl] at htail ⊢
                  exact List.chain'_cons.mpr ⟨hnle _ _ hxy, htail⟩
              | false =>
                  rw [hxz] at htail
                  simp only [Bool.false_eq_true, if_false] at htail ⊢
                  exact List.chain'_cons.mpr ⟨hyz, htail⟩

theorem chain_sortByLe (le : α → α → Bool) (Q : α → α → Prop)
    (hle : ∀ a b, le a b = true → Q a b)
    (hnle : ∀ a b, le a b = false → Q b a) :
    ∀ l : List α, (sortByLe le l).Chain' Q := by
  intro l
  induction l with
  | nil => simp [sortByLe]
  | cons x xs ih => exact chain_insertSorted le Q hle hnle x (sortByLe le xs) ih

theorem perm_flatten_outer {l1 l2 : List (List α)} (h : List.Perm l1 l2) :
    List.Perm l1.flatten l2.flatten := by
  induction h with
  | nil => exact List.Perm.refl _
  | cons x _ ih => simpa [List.flatten_cons] using ih.append_left x
  | swap x y l =>
      simp only [List.flatten_cons]
      rw [← List.append_assoc, ← List.append_assoc]
      exact List.perm_append_comm.append_right _
  | trans _ _ ih1 ih2 => exact ih1.trans ih2

/-! ### The lexicographic string order -/

theorem lexLt_cons (a b : Char) (as bs : List Char) :
    lexLt (a :: as) (b :: bs) = true ↔ a < b ∨ (a = b ∧ lexLt as bs = true) := by
  simp only [lexLt]
  by_cases hab : a < b
  · simp [hab]
  · by_cases hba : b < a
    · rw [if_neg hab, if_pos hba]
      constructor
      · intro h; exact absurd h (by simp)
      · rintro (h | ⟨rfl, _⟩)
        · exact absurd h hab
        · exact absurd hba (lt_irrefl a)
    · have heq : a = b := le_antisymm (le_of_not_lt hba) (le_of_not_lt hab)
      rw [if_neg hab, if_neg hba]
      simp [heq]

theorem lexLt_irrefl : ∀ as : List Char, lexLt as as = false := by
  intro as
  induction as with
  | nil => rfl
  | cons a as' ih => simp [lexLt, lt_irrefl, ih]

theorem lexLt_trans :
    ∀ (as bs cs : List Char), lexLt as bs = true → lexLt bs cs = true →
      lexLt as cs = true := by
  intro as
  induction as with
  | nil =>
      intro bs cs h1 h2
      cases bs with
      | nil => simp [lexLt] at h1
      | cons b bs' =>
          cases cs with
          | nil => simp [lexLt] at h2
          | cons c cs' => simp [lexLt]
  | cons a as' ih =>
      intro bs cs h1 h2
      cases bs with
      | nil => simp [lexLt] at h1
      | cons b bs' =>
          cases cs with
          | nil => simp [lexLt] at h2
          | cons c cs' =>
              rcases (lexLt_cons a b as' bs').mp h1 with hab | ⟨rfl, hab2⟩
              · rcases (lexLt_cons b c bs' cs').mp h2 with hbc | ⟨rfl, hbc2⟩
                · exact (lexLt_cons a c as' cs').mpr (Or.inl (lt_trans hab hbc))
                · exact (lexLt_cons a b as' cs').mpr (Or.inl hab)
              · rcases (lexLt_cons a c bs' cs').mp h2 with hbc | ⟨rfl, hbc2⟩
                · exact (lexLt_cons a c as' cs').mpr (Or.inl hbc)
                · exact (lexLt_cons a a as' cs').mpr
                    (Or.inr ⟨rfl, ih bs' cs' hab2 hbc2⟩)

theorem lexLt_trichotomy :
    ∀ as bs : List Char, lexLt as bs = true ∨ lexLt bs as = true ∨ as = bs := by
  intro as
  induction as with
  | nil =>
      intro bs
      cases bs with
      | nil => exact Or.inr (Or.inr rfl)
      | cons b bs' => exact Or.inl (by simp [lexLt])
  | cons a as' ih =>
      intro bs
      cases bs with
      | nil => exact Or.inr (Or.inl (by simp [lexLt]))
      | cons b bs' =>
          rcases lt_trichotomy a b with h | h | h
          · exact Or.inl ((lexLt_cons a b as' bs').mpr (Or.inl h))
          · rcases ih bs' with h2 | h2 | h2
            · exact Or.inl ((lexLt_cons a b as' bs').mpr (Or.inr ⟨h, h2⟩))
            · exact Or.inr (Or.inl
                ((lexLt_cons b a bs' as').mpr (Or.inr ⟨h.symm, h2⟩)))
            · exact Or.inr (Or.inr (by rw [h, h2]))
          · exact Or.inr (Or.inl ((lexLt_cons b a bs' as').mpr (Or.inl h)))

theorem lexLt_asymm {as bs : List Char} (h : lexLt as bs = true) :
    lexLt bs as = false := by
  by_contra hc
  have h2 : lexLt bs as = true := by simpa using hc
  have h3 := lexLt_trans as bs as h h2
  rw [lexLt_irrefl] at h3
  exact Bool.false_ne_true h3

theorem strLe_trans {a b c : String} (h1 : strLe a b = true)
    (h2 : strLe b c = true) : strLe a c = true := by
  simp only [strLe, strLt, Bool.not_eq_true'] at h1 h2 ⊢
  by_contra hc
  have hca : lexLt c.toList a.toList = true := by simpa using hc
  rcases lexLt_trichotomy c.toList b.toList with h | h | h
  · rw [h2] at h; exact Bool.false_ne_true h
  · have := lexLt_trans b.toList c.toList a.toList h hca
    rw [h1] at this; exact Bool.false_ne_true this
  · rw [h] at hca
    rw [h1] at hca; exact Bool.false_ne_true hca

theorem strLe_false {a b : String} (h : strLe a b = false) :
    strLe b a = true := by
  simp only [strLe, strLt, Bool.not_eq_false'] at h
  simp only [strLe, strLt, Bool.not_eq_true']
  exact lexLt_asymm h

theorem strLt_of_strLe_of_ne {a b : String} (h : strLe a b = true)
    (hne : a ≠ b) : strLt a b = true := by
  rcases lexLt_trichotomy a.toList b.toList with h2 | h2 | h2
  · exact h2
  · exfalso
    simp only [strLe, strLt, Bool.not_eq_true'] at h
    rw [h] at h2
    exact Bool.false_ne_true h2
  · exact absurd (String.ext h2) hne

/-! ### The in-group comparator -/

theorem jsStrictNe_symm (a b : OrderVal) : jsStrictNe a b = jsStrictNe b a := by
  cases a <;> cases b <;> simp [jsStrictNe, bne, eq_comm]

theorem orFallback_eq_of_jsStrictNe_false {a b : OrderVal}
    (h : jsStrictNe a b = false) : orFallback a = orFallback b := by
  cases a <;> cases b <;> simp_all [jsStrictNe, orFallback, bne]

theorem processLe_true_fallback {a b : SRecord} (h : processLe a b = true) :
    orFallback a.Order__c ≤ orFallback b.Order__c := by
  unfold processLe at h
  by_cases hne : jsStrictNe a.Order__c b.Order__c = true
  · rw [if_pos hne] at h; exact of_decide_eq_true h
  · have hf : jsStrictNe a.Order__c b.Order__c = false := by
      simpa using hne
    exact le_of_eq (orFallback_eq_of_jsStrictNe_false hf)

theorem processLe_false_fallback {a b : SRecord} (h : processLe a b = false) :
    orFallback b.Order__c ≤ orFallback a.Order__c := by
  unfold processLe at h
  by_cases hne : jsStrictNe a.Order__c b.Order__c = true
  · rw [if_pos hne] at h
    exact le_of_not_le (of_decide_eq_false h)
  · have hf : jsStrictNe a.Order__c b.Order__c = false := by
      simpa using hne
    exact le_of_eq (orFallback_eq_of_jsStrictNe_false hf).symm

theorem processLe_true_name {a b : SRecord} (h : processLe a b = true)
    (hne : jsStrictNe a.Order__c b.Order__c = false) :
    strLe a.Name b.Name = true := by
  unfold processLe at h
  rw [hne] at h
  simpa only [Bool.false_eq_true, if_false] using h

theorem processLe_false_name {a b : SRecord} (h : processLe a b = false)
    (hne : jsStrictNe a.Order__c b.Order__c = false) :
    strLe b.Name a.Name = true := by
  unfold processLe at h
  rw [hne] at h
  simp only [Bool.false_eq_true, if_false] at h
  exact strLe_false h

/-- The two sortedness facts every group's member list satisfies: member
effective orders are non-decreasing, and adjacent members whose raw order
values are strictly equal are in name order. -/
theorem sortByLe_processLe_sorted (l : List SRecord) :
    (sortByLe processLe l).Pairwise
      (fun a b => orFallback a.Order__c ≤ orFallback b.Order__c) ∧
    (sortByLe processLe l).Chain'
      (fun a b => jsStrictNe a.Order__c b.Order__c = false →
        strLe a.Name b.Name = true) := by
  constructor
  · exact pairwise_sortByLe processLe
      (fun a b => orFallback a.Order__c ≤ orFallback b.Order__c)
      (fun a b c h1 h2 => le_trans h1 h2)
      (fun a b h => processLe_true_fallback h)
      (fun a b h => processLe_false_fallback h) l
  · refine chain_sortByLe processLe _ ?_ ?_ l
    · intro a b h hne
      exact processLe_true_name h hne
    · intro a b h hne
      have hne' : jsStrictNe a.Order__c b.Order__c = false := by
        rw [jsStrictNe_symm] at hne; exact hne
      exact processLe_false_name h hne'

/-! ### The group map -/

theorem groupNameOf_annotate (r : SRecord) :
    groupNameOf (annotate r) = groupNameOf r := rfl

theorem mem_keys_addToGroup {gs : List (String × List SRecord)} {r : SRecord}
    {x : String} (h : x ∈ (addToGroup gs r).map Prod.fst) :
    x ∈ gs.map Prod.fst ∨ x = groupNameOf r := by
  induction gs with
  | nil => simpa [addToGroup] using h
  | cons p ps ih =>
      simp only [addToGroup] at h
      by_cases hp : p.1 = groupNameOf r
      · rw [if_pos hp] at h
        simp only [List.map_cons, List.mem_cons] at h
        rcases h with h | h
        · exact Or.inl (by simp [h])
        · exact Or.inl (by simp [h])
      · rw [if_neg hp] at h
        simp only [List.map_cons, List.mem_cons] at h
        rcases h with h | h
        · exact Or.inl (by simp [h])
        · rcases ih h with h2 | h2
          · exact Or.inl (by simp [h2])
          · exact Or.inr h2

theorem nodup_keys_addToGroup {gs : List (String × List SRecord)} {r : SRecord}
    (h : (gs.map Prod.fst).Nodup) : ((addToGroup gs r).map Prod.fst).Nodup := by
  induction gs with
  | nil => simp [addToGroup]
  | cons p ps ih =>
      simp only [List.map_cons, List.nodup_cons] at h
      simp only [addToGroup]
      by_cases hp : p.1 = groupNameOf r
      · rw [if_pos hp]
        simp only [List.map_cons, List.nodup_cons]
        exact h
      · rw [if_neg hp]
        simp only [List.map_cons, List.nodup_cons]
        refine ⟨?_, ih h.2⟩
        intro hmem
        rcases mem_keys_addToGroup hmem with h2 | h2
        · exact h.1 h2
        · exact hp h2

theorem members_addToGroup {gs : List (String × List SRecord)} {r : SRecord}
    (h : ∀ p ∈ gs, ∀ q ∈ p.2, groupNameOf q = p.1) :
    ∀ p ∈ addToGroup gs r, ∀ q ∈ p.2, groupNameOf q = p.1 := by
  induction gs with
  | nil =>
      intro p hp q hq
      simp only [addToGroup, List.mem_singleton] at hp
      subst hp
      simp only [List.mem_singleton] at hq
      subst hq
      exact groupNameOf_annotate r
  | cons p0 ps ih =>
      intro p hp q hq
      simp only [addToGroup] at hp
      by_cases hp0 : p0.1 = groupNameOf r
      · rw [if_pos hp0] at hp
        rcases List.mem_cons.mp hp with rfl | hp
        · simp only [List.mem_append, List.mem_singleton] at hq
          rcases hq with hq | hq
          · exact h p0 (List.mem_cons_self _ _) q hq
          · subst hq
            rw [groupNameOf_annotate]
            exact hp0.symm
        · exact h p (List.mem_cons_of_mem _ hp) q hq
      · rw [if_neg hp0] at hp
        rcases List.mem_cons.mp hp with rfl | hp
        · exact h p (List.mem_cons_self _ _) q hq
        · exact ih (fun p1 hp1 => h p1 (List.mem_cons_of_mem _ hp1)) p hp q hq

theorem nonempty_addToGroup {gs : List (String × List SRecord)} {r : SRecord}
    (h : ∀ p ∈ gs, p.2 ≠ []) : ∀ p ∈ addToGroup gs r, p.2 ≠ [] := by
  induction gs with
  | nil =>
      intro p hp
      simp only [addToGroup, List.mem_singleton] at hp
      subst hp
      simp
  | cons p0 ps ih =>
      intro p hp
      simp only [addToGroup] at hp
      by_cases hp0 : p0.1 = groupNameOf r
      · rw [if_pos hp0] at hp
        rcases List.mem_cons.mp hp with rfl | hp
        · simp
        · exact h p (List.mem_cons_of_mem _ hp)
      · rw [if_neg hp0] at hp
        rcases List.mem_cons.mp hp with rfl | hp
        · exact h p (List.mem_cons_self _ _)
        · exact ih (fun p1 hp1 => h p1 (List.mem_cons_of_mem _ hp1)) p hp

theorem flatten_addToGroup (gs : List (String × List SRecord)) (r : SRecord) :
    List.Perm (((addToGroup gs r).map Prod.snd).flatten)
      ((gs.map Prod.snd).flatten ++ [annotate r]) := by
  induction gs with
  | nil => simp [addToGroup]
  | cons p ps ih =>
      simp only [addToGroup]
      by_cases hp : p.1 = groupNameOf r
      · rw [if_pos hp]
        simp only [List.map_cons, List.flatten_cons]
        rw [List.append_assoc, List.append_assoc]
        exact (@List.perm_append_comm SRecord [annotate r] _).append_left p.2
      · rw [if_neg hp]
        simp only [List.map_cons, List.flatten_cons]
        rw [List.append_assoc]
        exact ih.append_left p.2

theorem foldl_addToGroup_nodup_keys (l : List SRecord) :
    ∀ gs : List (String × List SRecord), (gs.map Prod.fst).Nodup →
      ((l.foldl addToGroup gs).map Prod.fst).Nodup := by
  induction l with
  | nil => intro gs h; simpa using h
  | cons r rs ih =>
      intro gs h
      exact ih (addToGroup gs r) (nodup_keys_addToGroup h)

theorem foldl_addToGroup_members (l : List SRecord) :
    ∀ gs : List (String × List SRecord),
      (∀ p ∈ gs, ∀ q ∈ p.2, groupNameOf q = p.1) →
      ∀ p ∈ l.foldl addToGroup gs, ∀ q ∈ p.2, groupNameOf q = p.1 := by
  induction l with
  | nil => intro gs h; simpa using h
  | cons r rs ih =>
      intro gs h
      exact ih (addToGroup gs r) (members_addToGroup h)

theorem foldl_addToGroup_nonempty (l : List SRecord) :
    ∀ gs : List (String × List SRecord), (∀ p ∈ gs, p.2 ≠ []) →
      ∀ p ∈ l.foldl addToGroup gs, p.2 ≠ [] := by
  induction l with
  | nil => intro gs h; simpa using h
  | cons r rs ih =>
      intro gs h
      exact ih (addToGroup gs r) (nonempty_addToGroup h)

theorem foldl_addToGroup_flatten (l : List SRecord) :
    ∀ gs : List (String × List SRecord),
      List.Perm (((l.foldl addToGroup gs).map Prod.snd).flatten)
        ((gs.map Prod.snd).flatten ++ l.map annotate) := by
  induction l with
  | nil => intro gs; simp
  | cons r rs ih =>
      intro gs
      refine (ih (addToGroup gs r)).trans ?_
      refine ((flatten_addToGroup gs r).append_right (rs.map annotate)).trans ?_
      rw [List.append_assoc]
      simp

theorem buildGroups_nodup_keys (l : List SRecord) :
    ((buildGroups l).map Prod.fst).Nodup :=
  foldl_addToGroup_nodup_keys l [] (by simp)

theorem buildGroups_members (l : List SRecord) :
    ∀ p ∈ buildGroups l, ∀ q ∈ p.2, groupNameOf q = p.1 :=
  foldl_addToGroup_members l [] (by simp)

theorem buildGroups_nonempty (l : List SRecord) :
    ∀ p ∈ buildGroups l, p.2 ≠ [] :=
  foldl_addToGroup_nonempty l [] (by simp)

theorem buildGroups_flatten (l : List SRecord) :
    List.Perm (((buildGroups l).map Prod.snd).flatten) (l.map annotate) := by
  have h := foldl_addToGroup_flatten l []
  simpa using h

/-! ### Shape of the projection -/

theorem mkGroup_processes (p : String × List SRecord) :
    (mkGroup p).processes = sortByLe processLe p.2 := rfl

theorem mkGroup_groupName (p : String × List SRecord) :
    (mkGroup p).groupName = p.1 := rfl

theorem mkGroup_headerClass (p : String × List SRecord) :
    (mkGroup p).headerClass = headerOf (mkGroup p).processes := rfl

theorem mkGroup_statusText (p : String × List SRecord) :
    (mkGroup p).statusText = statusOf (mkGroup p).processes := rfl

theorem mem_processGroupedData {l : List SRecord} {g : GroupProj}
    (hg : g ∈ processGroupedData l) : ∃ p ∈ buildGroups l, g = mkGroup p := by
  unfold processGroupedData at hg
  by_cases he : l.isEmpty
  · rw [if_pos he] at hg
    exact absurd hg (List.not_mem_nil g)
  · rw [if_neg he] at hg
    have hmem := (perm_sortByLe groupLe ((buildGroups l).map mkGroup)).subset hg
    rcases List.mem_map.mp hmem with ⟨p, hp, hpg⟩
    exact ⟨p, hp, hpg.symm⟩

theorem processGroupedData_perm_map_mkGroup (l : List SRecord) (hne : ¬ l.isEmpty = true) :
    List.Perm (processGroupedData l) ((buildGroups l).map mkGroup) := by
  unfold processGroupedData
  rw [if_neg hne]
  exact perm_sortByLe groupLe _

/-- Every group's member list satisfies the invariants established for
`buildGroups`: names match the group, the list is non-empty, and it is a
sorted permutation of the bucket it came from. -/
theorem processGroupedData_group_facts {l : List SRecord} {g : GroupProj}
    (hg : g ∈ processGroupedData l) :
    (∀ r ∈ g.processes, groupNameOf r = g.groupName) ∧ g.processes ≠ [] := by
  rcases mem_processGroupedData hg with ⟨p, hp, rfl⟩
  constructor
  · intro r hr
    rw [mkGroup_processes] at hr
    have hr2 := (perm_sortByLe processLe p.2).subset hr
    rw [mkGroup_groupName]
    exact buildGroups_members l p hp r hr2
  · rw [mkGroup_processes]
    intro hnil
    have hlen := (perm_sortByLe processLe p.2).length_eq
    rw [hnil] at hlen
    exact buildGroups_nonempty l p hp (List.length_eq_zero.mp hlen.symm)

/-- The partition fact shared by several claims: flattening the projection
gives back exactly the working records (each carrying its status class). -/
theorem processGroupedData_flatten_perm (l : List SRecord) :
    List.Perm ((processGroupedData l).map (fun g => g.processes)).flatten
      (l.map annotate) := by
  by_cases he : l.isEmpty
  · have : l = [] := List.isEmpty_iff.mp he
    subst this
    simp [processGroupedData]
  · have hperm := processGroupedData_perm_map_mkGroup l he
    refine (perm_flatten_outer (hperm.map (fun g => g.processes))).trans ?_
    have hmap : ((buildGroups l).map mkGroup).map (fun g => g.processes) =
        (buildGroups l).map (fun p => sortByLe processLe p.2) := by
      rw [List.map_map]; rfl
    rw [hmap]
    refine (List.Perm.flatten_congr ?_).trans (buildGroups_flatten l)
    rw [List.forall₂_map_left_iff, List.forall₂_map_right_iff]
    exact List.forall₂_same.mpr (fun p _ => perm_sortByLe processLe p.2)

/-- Inside each projected group the effective orders are non-decreasing. -/
theorem processGroupedData_sorted {l : List SRecord} {g : GroupProj}
    (hg : g ∈ processGroupedData l) :
    g.processes.Pairwise
      (fun a b => orFallback a.Order__c ≤ orFallback b.Order__c) ∧
    g.processes.Chain'
      (fun a b => jsStrictNe a.Order__c b.Order__c = false →
        strLe a.Name b.Name = true) := by
  rcases mem_processGroupedData hg with ⟨p, hp, rfl⟩
  rw [mkGroup_processes]
  exact sortByLe_processLe_sorted p.2

/-- The group names of the projection are strictly increasing. -/
theorem processGroupedData_names_sorted (l : List SRecord) :
    ((processGroupedData l).map (fun g => g.groupName)).Pairwise
      (fun a b => strLt a b = true) := by
  by_cases he : l.isEmpty
  · unfold processGroupedData
    rw [if_pos he]
    simp
  · have hnodup : (((processGroupedData l).map (fun g => g.groupName)).Nodup) := by
      have hperm := (processGroupedData_perm_map_mkGroup l he).map
        (fun g => g.groupName)
      refine hperm.nodup_iff.mpr ?_
      have : ((buildGroups l).map mkGroup).map (fun g => g.groupName) =
          (buildGroups l).map Prod.fst := by
        rw [List.map_map]; rfl
      rw [this]
      exact buildGroups_nodup_keys l
    have hle : (processGroupedData l).Pairwise
        (fun g1 g2 => strLe g1.groupName g2.groupName = true) := by
      unfold processGroupedData
      rw [if_neg he]
      exact pairwise_sortByLe groupLe
        (fun g1 g2 => strLe g1.groupName g2.groupName = true)
        (fun a b c h1 h2 => strLe_trans h1 h2)
        (fun a b h => h)
        (fun a b h => strLe_false h) _
    have hle2 : ((processGroupedData l).map (fun g => g.groupName)).Pairwise
        (fun a b => strLe a b = true) := List.pairwise_map.mpr hle
    have hne2 : ((processGroupedData l).map (fun g => g.groupName)).Pairwise
        (fun a b => a ≠ b) := hnodup
    exact (hle2.and hne2).imp (fun h => strLt_of_strLe_of_ne h.1 h.2)

/-! ### The edit pass and the staging map -/

theorem applyField_Id (e : EditField) (r : SRecord) : (applyField e r).Id = r.Id := by
  cases e <;> rfl

theorem editPass_fst (rid : String) (upd : SRecord → SRecord) :
    ∀ (l : List SRecord) (m : List (String × SRecord)),
      (editPass rid upd l m).1 =
        l.map (fun r => if r.Id = some rid then upd r else r) := by
  intro l
  induction l with
  | nil => intro m; rfl
  | cons r rs ih =>
      intro m
      simp only [editPass]
      by_cases hr : r.Id = some rid
      · rw [if_pos hr]
        simp only [List.map_cons, if_pos hr]
        rw [ih]
      · rw [if_neg hr]
        simp only [List.map_cons, if_neg hr]
        rw [ih]

theorem editPass_snd_no_match (rid : String) (upd : SRecord → SRecord) :
    ∀ (l : List SRecord) (m : List (String × SRecord)),
      (∀ r ∈ l, r.Id ≠ some rid) → (editPass rid upd l m).2 = m := by
  intro l
  induction l with
  | nil => intro m _; rfl
  | cons r rs ih =>
      intro m h
      simp only [editPass]
      rw [if_neg (h r (List.mem_cons_self _ _))]
      exact ih m (fun r2 hr2 => h r2 (List.mem_cons_of_mem _ hr2))

theorem editPass_snd_match (rid : String) (upd : SRecord → SRecord) :
    ∀ (l : List SRecord) (m : List (String × SRecord)) (r0 : SRecord),
      (l.map (fun r => r.Id)).Nodup →
      l.find? (fun r => decide (r.Id = some rid)) = some r0 →
      (editPass rid upd l m).2 = mapSet m rid (upd r0) := by
  intro l
  induction l with
  | nil => intro m r0 _ hfind; simp [List.find?] at hfind
  | cons r rs ih =>
      intro m r0 hnodup hfind
      simp only [List.map_cons, List.nodup_cons] at hnodup
      simp only [editPass]
      by_cases hr : r.Id = some rid
      · rw [if_pos hr]
        have hr0 : r0 = r := by
          rw [List.find?_cons_of_pos _ (by simpa using hr)] at hfind
          exact (Option.some_inj.mp hfind).symm
        subst hr0
        have hnm : ∀ r2 ∈ rs, r2.Id ≠ some rid := by
          intro r2 hr2 hid
          exact hnodup.1 (by
            rw [← hr] at hid
            exact hid ▸ List.mem_map_of_mem (fun r3 => r3.Id) hr2)
        exact editPass_snd_no_match rid upd rs (mapSet m rid (upd r0)) hnm
      · rw [if_neg hr]
        rw [List.find?_cons_of_neg _ (by simpa using hr)] at hfind
        exact ih m r0 hnodup.2 hfind

theorem keys_mapSet_of_mem (m : List (String × SRecord)) (k : String)
    (v : SRecord) (h : m.any (fun p => p.1 = k) = true) :
    (mapSet m k v).map Prod.fst = m.map Prod.fst := by
  unfold mapSet
  rw [if_pos h, List.map_map]
  refine List.map_congr_left ?_
  intro p _
  by_cases hp : p.1 = k
  · simp [hp]
  · simp [hp]

theorem keys_mapSet_of_not_mem (m : List (String × SRecord)) (k : String)
    (v : SRecord) (h : ¬ m.any (fun p => p.1 = k) = true) :
    (mapSet m k v).map Prod.fst = m.map Prod.fst ++ [k] := by
  unfold mapSet
  rw [if_neg h]
  simp

theorem nodup_keys_mapSet (m : List (String × SRecord)) (k : String)
    (v : SRecord) (h : (m.map Prod.fst).Nodup) :
    ((mapSet m k v).map Prod.fst).Nodup := by
  by_cases hmem : m.any (fun p => p.1 = k) = true
  · rw [keys_mapSet_of_mem m k v hmem]; exact h
  · rw [keys_mapSet_of_not_mem m k v hmem]
    have hk : k ∉ m.map Prod.fst := by
      intro hk
      rcases List.mem_map.mp hk with ⟨p, hp, hpk⟩
      have := List.any_eq_false.mp (Bool.eq_false_iff.mpr hmem) p hp
      simp [hpk] at this
    simp [List.nodup_append, h, hk]

theorem mem_mapSet {m : List (String × SRecord)} {k : String} {v : SRecord}
    {p : String × SRecord} (h : p ∈ mapSet m k v) :
    p = (k, v) ∨ (p ∈ m ∧ p.1 ≠ k) := by
  unfold mapSet at h
  by_cases hmem : m.any (fun p2 => p2.1 = k) = true
  · rw [if_pos hmem] at h
    rcases List.mem_map.mp h with ⟨q, hq, hqp⟩
    by_cases hqk : q.1 = k
    · rw [if_pos hqk] at hqp
      exact Or.inl hqp.symm
    · rw [if_neg hqk] at hqp
      subst hqp
      exact Or.inr ⟨hq, hqk⟩
  · rw [if_neg hmem] at h
    rcases List.mem_append.mp h with h2 | h2
    · have hne := List.any_eq_false.mp (Bool.eq_false_iff.mpr hmem) p h2
      exact Or.inr ⟨h2, by simpa using hne⟩
    · exact Or.inl (by simpa using h2)


theorem updIf_Id (rid : String) (e : EditField) (r : SRecord) :
    (if r.Id = some rid then applyField e r else r).Id = r.Id := by
  by_cases hr : r.Id = some rid
  · rw [if_pos hr]; exact applyField_Id e r
  · rw [if_neg hr]

theorem processData_ids_handleTableEdit (rid : String) (e : EditField)
    (st : SetupState) :
    (handleTableEdit rid e st).processData.map (fun r => r.Id) =
      st.processData.map (fun r => r.Id) := by
  unfold handleTableEdit
  simp only [editPass_fst, List.map_map]
  refine List.map_congr_left ?_
  intro r _
  exact updIf_Id rid e r

theorem find?_processData_handleTableEdit (rid k : String) (e : EditField)
    (st : SetupState) :
    (handleTableEdit rid e st).processData.find?
        (fun r => decide (r.Id = some k)) =
      Option.map (fun r => if r.Id = some rid then applyField e r else r)
        (st.processData.find? (fun r => decide (r.Id = some k))) := by
  unfold handleTableEdit
  simp only [editPass_fst]
  have hpred : ((fun r => decide (r.Id = some k)) ∘
      (fun r => if r.Id = some rid then applyField e r else r)) =
      (fun r : SRecord => decide (r.Id = some k)) := by
    funext r
    simp only [Function.comp_apply, updIf_Id]
  rw [List.find?_map, hpred]

theorem stagingInv_handleTableEdit (rid : String) (e : EditField)
    (st : SetupState) (h : StagingInv st) :
    StagingInv (handleTableEdit rid e st) := by
  rcases h with ⟨hids, hkeys, hentries⟩
  have hids2 : ((handleTableEdit rid e st).processData.map (fun r => r.Id)).Nodup := by
    rw [processData_ids_handleTableEdit]; exact hids
  have hchanged : (handleTableEdit rid e st).changedRecords =
      (editPass rid (applyField e) st.processData st.changedRecords).2 := rfl
  cases hfind : st.processData.find? (fun r => decide (r.Id = some rid)) with
  | none =>
      have hnm : ∀ r ∈ st.processData, r.Id ≠ some rid := by
        intro r hr hid
        have := List.find?_eq_none.mp hfind r hr
        simp [hid] at this
      have hsame : (handleTableEdit rid e st).changedRecords = st.changedRecords := by
        rw [hchanged, editPass_snd_no_match rid (applyField e) st.processData
          st.changedRecords hnm]
      refine ⟨hids2, by rw [hsame]; exact hkeys, ?_⟩
      intro p hp
      rw [hsame] at hp
      have hold := hentries p hp
      have hpid : p.2.Id = some p.1 := by
        have := List.find?_some hold
        simpa using this
      have hp1 : p.1 ≠ rid := by
        intro hrid
        exact hnm p.2 (List.mem_of_find?_eq_some hold) (by rw [hpid, hrid])
      rw [find?_processData_handleTableEdit, hold]
      simp only [Option.map_some']
      rw [if_neg (by rw [hpid]; simpa using hp1)]
  | some r0 =>
      have hr0id : r0.Id = some rid := by
        have := List.find?_some hfind
        simpa using this
      have hset : (handleTableEdit rid e st).changedRecords =
          mapSet st.changedRecords rid (applyField e r0) := by
        rw [hchanged, editPass_snd_match rid (applyField e) st.processData
          st.changedRecords r0 hids hfind]
      refine ⟨hids2, by rw [hset]; exact nodup_keys_mapSet _ _ _ hkeys, ?_⟩
      intro p hp
      rw [hset] at hp
      rcases mem_mapSet hp with rfl | ⟨hp2, hp1⟩
      · rw [find?_processData_handleTableEdit, hfind]
        simp only [Option.map_some']
        rw [if_pos hr0id]
      · have hold := hentries p hp2
        have hpid : p.2.Id = some p.1 := by
          have := List.find?_some hold
          simpa using this
        rw [find?_processData_handleTableEdit, hold]
        simp only [Option.map_some']
        rw [if_neg (by rw [hpid]; simpa using hp1)]

theorem stagingInv_loadData (data : List SRecord) (st0 : SetupState)
    (h : ((data.map deriveRecord).map (fun r => r.Id)).Nodup) :
    StagingInv (loadData data st0) := by
  refine ⟨h, by simp [loadData], ?_⟩
  intro p hp
  simp [loadData] at hp

theorem stagingInv_applyEdits (edits : List (String × EditField)) :
    ∀ st : SetupState, StagingInv st → StagingInv (applyEdits edits st) := by
  induction edits with
  | nil => intro st h; exact h
  | cons e es ih =>
      intro st h
      exact ih (handleTableEdit e.1 e.2 st) (stagingInv_handleTableEdit e.1 e.2 st h)

/-! ### State-machine facts -/

theorem handleTableEdit_originalData (rid : String) (e : EditField)
    (st : SetupState) : (handleTableEdit rid e st).originalData = st.originalData := rfl

theorem applyEdits_originalData (edits : List (String × EditField)) :
    ∀ st : SetupState, (applyEdits edits st).originalData = st.originalData := by
  induction edits with
  | nil => intro st; rfl
  | cons e es ih =>
      intro st
      exact (ih (handleTableEdit e.1 e.2 st)).trans rfl

theorem handleCancelChanges_processData (st : SetupState) :
    (handleCancelChanges st).1.processData = st.originalData.map deriveRecord := rfl

theorem handleCancelChanges_changed (st : SetupState) :
    (handleCancelChanges st).1.changedRecords = [] := rfl

theorem handleCancelChanges_events (st : SetupState) :
    (handleCancelChanges st).2 = [Event.toast "Info" "Changes cancelled" "info"] := rfl

/-! ### Header classification -/

theorem headerOf_classification (procs : List SRecord) (hne : procs ≠ []) :
    ((∀ r ∈ procs, r.Active__c = true) ↔
        headerOf procs = "group-header active-group-header") ∧
    ((∀ r ∈ procs, r.Active__c = false) ↔
        headerOf procs = "group-header inactive-group-header") ∧
    (((∃ r ∈ procs, r.Active__c = true) ∧ (∃ r ∈ procs, r.Active__c = false)) ↔
        headerOf procs = "group-header mixed-group-header") := by
  rcases List.exists_mem_of_ne_nil procs hne with ⟨r0, hr0⟩
  by_cases hA : ∀ r ∈ procs, r.Active__c = true
  · have hA2 : procs.all (fun r => r.Active__c) = true := List.all_eq_true.mpr hA
    have hH : headerOf procs = "group-header active-group-header" := by
      unfold headerOf; rw [if_pos hA2]
    refine ⟨⟨fun _ => hH, fun _ => hA⟩, ?_, ?_⟩
    · constructor
      · intro hI
        exact absurd (hA r0 hr0) (by simp [hI r0 hr0])
      · intro hEq
        rw [hH] at hEq
        exact absurd hEq (by decide)
    · constructor
      · rintro ⟨_, ⟨r1, hr1, hr1f⟩⟩
        exact absurd (hA r1 hr1) (by simp [hr1f])
      · intro hEq
        rw [hH] at hEq
        exact absurd hEq (by decide)
  · have hA3 : ∃ r ∈ procs, r.Active__c = false := by
      push_neg at hA
      rcases hA with ⟨r1, hr1m, hr1f⟩
      exact ⟨r1, hr1m, by simpa using hr1f⟩
    have hA2 : procs.all (fun r => r.Active__c) = false := by
      rcases hA3 with ⟨r1, hr1m, hr1f⟩
      exact List.all_eq_false.mpr ⟨r1, hr1m, by simp [hr1f]⟩
    by_cases hI : ∀ r ∈ procs, r.Active__c = false
    · have hI2 : procs.all (fun r => !r.Active__c) = true := by
        refine List.all_eq_true.mpr ?_
        intro r hr
        simp [hI r hr]
      have hH : headerOf procs = "group-header inactive-group-header" := by
        unfold headerOf
        rw [if_neg (by simp [hA2]), if_pos hI2]
      refine ⟨?_, ⟨fun _ => hH, fun _ => hI⟩, ?_⟩
      · constructor
        · intro hAll
          exact absurd (hAll r0 hr0) (by simp [hI r0 hr0])
        · intro hEq
          rw [hH] at hEq
          exact absurd hEq (by decide)
      · constructor
        · rintro ⟨⟨r1, hr1, hr1t⟩, _⟩
          exact absurd (hI r1 hr1) (by simp [hr1t])
        · intro hEq
          rw [hH] at hEq
          exact absurd hEq (by decide)
    · have hI3 : ∃ r ∈ procs, r.Active__c = true := by
        push_neg at hI
        rcases hI with ⟨r1, hr1m, hr1f⟩
        exact ⟨r1, hr1m, by simpa using hr1f⟩
      have hI2 : procs.all (fun r => !r.Active__c) = false := by
        rcases hI3 with ⟨r1, hr1m, hr1f⟩
        exact List.all_eq_false.mpr ⟨r1, hr1m, by simp [hr1f]⟩
      have hH : headerOf procs = "group-header mixed-group-header" := by
        unfold headerOf
        rw [if_neg (by simp [hA2]), if_neg (by simp [hI2])]
      refine ⟨?_, ?_, ?_⟩
      · constructor
        · intro hAll
          exact absurd (List.all_eq_true.mpr hAll) (by simp [hA2])
        · intro hEq
          rw [hH] at hEq
          exact absurd hEq (by decide)
      · constructor
        · intro hAll
          refine absurd hI ?_
          simp only [not_not]
          exact hAll
        · intro hEq
          rw [hH] at hEq
          exact absurd hEq (by decide)
      · exact ⟨fun _ => hH, fun _ => ⟨hI3, hA3⟩⟩

/-! ### The timestamp conversion -/

theorem ensureSeconds_noSeconds {s : String}
    (h : isDateTimeLocalNoSeconds s = true) :
    ensureSeconds s = some (s ++ ":00") := by
  have h16 : s.toList.length = 16 := by
    unfold isDateTimeLocalNoSeconds at h
    split at h
    · next heq => rw [heq]; rfl
    · simp at h
  have hlen : s.length = 16 := h16
  have hne : s ≠ "" := by
    intro he
    rw [he] at hlen
    simp at hlen
  unfold ensureSeconds
  rw [if_neg hne, hlen, if_pos (by norm_num)]

/-! ### Claim theorems -/

/-- C1: for every working set, the grouped-view projection partitions the
records: flattening the groups gives back exactly the working records (each
carrying its derived status class, with absent group names collapsed to
`"Ungrouped"` by `groupNameOf`), every member sits in the group named by its
group name, no group is empty, a record's group is unique, and the groups are
strictly ordered by group name. -/
theorem grouped_view_partition (l : List SRecord) :
    List.Perm ((processGroupedData l).map (fun g => g.processes)).flatten
      (l.map annotate) ∧
    (∀ g ∈ processGroupedData l, ∀ r ∈ g.processes,
      groupNameOf r = g.groupName) ∧
    (∀ g ∈ processGroupedData l, g.processes ≠ []) ∧
    (∀ g1 ∈ processGroupedData l, ∀ g2 ∈ processGroupedData l,
      ∀ r : SRecord, r ∈ g1.processes → r ∈ g2.processes → g1 = g2) ∧
    ((processGroupedData l).map (fun g => g.groupName)).Pairwise
      (fun a b => strLt a b = true) := by
  refine ⟨processGroupedData_flatten_perm l, ?_, ?_, ?_,
    processGroupedData_names_sorted l⟩
  · intro g hg
    exact (processGroupedData_group_facts hg).1
  · intro g hg
    exact (processGroupedData_group_facts hg).2
  · intro g1 hg1 g2 hg2 r hr1 hr2
    have hn1 : groupNameOf r = g1.groupName :=
      (processGroupedData_group_facts hg1).1 r hr1
    have hn2 : groupNameOf r = g2.groupName :=
      (processGroupedData_group_facts hg2).1 r hr2
    have hnodup : ((processGroupedData l).map (fun g => g.groupName)).Nodup :=
      (processGroupedData_names_sorted l).imp (fun h => by
        intro heq
        rw [heq, strLt, lexLt_irrefl] at h
        exact Bool.false_ne_true h)
    exact List.inj_on_of_nodup_map hnodup hg1 hg2 (hn1.symm.trans hn2)

/-- C2 counterexample: the claim's ordering (ascending by the numeric order
field, absent orders last) fails on the code: with orders `[0, 1]` the
comparator's `|| 999` fallback also swallows the falsy number `0`, so the
record with order `0` is sorted after the record with order `1`. -/
theorem group_order_zero_counterexample :
    (∃ g ∈ processGroupedData cexZero,
      ¬ g.processes.Pairwise (fun a b => specOrderLe a b = true)) ∧
    (processGroupedData cexZero).map
        (fun g => g.processes.map (fun r => (r.Name, r.Order__c))) =
      [[("B", OrderVal.num 1), ("A", OrderVal.num 0)]] := by
  constructor
  · decide
  · decide

/-- C2 (amended): within each group the members are arranged so that the
effective orders are non-decreasing, where the effective order maps every
falsy order value (absent/null, `NaN`, the empty string, and the number `0`)
to the sentinel `999`; adjacent members whose raw order values are strictly
equal are in name order; and the spec's concrete example (orders
`[3, null, 1, null]`, names `[B, A, C, D]`) sorts to `[C, B, A, D]`. -/
theorem group_members_sorted_amended (l : List SRecord) (g : GroupProj)
    (hg : g ∈ processGroupedData l) :
    g.processes.Pairwise
      (fun a b => orFallback a.Order__c ≤ orFallback b.Order__c) ∧
    g.processes.Chain'
      (fun a b => jsStrictNe a.Order__c b.Order__c = false →
        strLe a.Name b.Name = true) ∧
    (processGroupedData exOrders).map
        (fun g2 => g2.processes.map (fun r => r.Name)) =
      [["C", "B", "A", "D"]] :=
  ⟨(processGroupedData_sorted hg).1, (processGroupedData_sorted hg).2,
    by decide⟩

/-- C2 witness: the amended sortedness theorem applied to the single group of
the spec's concrete example. -/
theorem group_members_sorted_amended_witness :
    ((processGroupedData exOrders).headD gdefault).processes.Pairwise
      (fun a b => orFallback a.Order__c ≤ orFallback b.Order__c) ∧
    ((processGroupedData exOrders).headD gdefault).processes.Chain'
      (fun a b => jsStrictNe a.Order__c b.Order__c = false →
        strLe a.Name b.Name = true) ∧
    (processGroupedData exOrders).map
        (fun g2 => g2.processes.map (fun r => r.Name)) =
      [["C", "B", "A", "D"]] :=
  group_members_sorted_amended exOrders
    ((processGroupedData exOrders).headD gdefault) (by decide)

/-- C3: every group of the projection carries the status text
`"A/N Active"` with `A` the active member count and `N` the member count; the
header style is the active one exactly when every member is active, the
inactive one exactly when no member is active, and the mixed one exactly when
both kinds occur; with all members active the text reads `"N/N Active"` and
with none active `"0/N Active"`. -/
theorem group_header_classification (l : List SRecord) (g : GroupProj)
    (hg : g ∈ processGroupedData l) :
    g.statusText =
      toString (g.processes.filter (fun r => r.Active__c)).length ++ "/" ++
        toString g.processes.length ++ " Active" ∧
    ((∀ r ∈ g.processes, r.Active__c = true) ↔
      g.headerClass = "group-header active-group-header") ∧
    ((∀ r ∈ g.processes, r.Active__c = false) ↔
      g.headerClass = "group-header inactive-group-header") ∧
    (((∃ r ∈ g.processes, r.Active__c = true) ∧
        (∃ r ∈ g.processes, r.Active__c = false)) ↔
      g.headerClass = "group-header mixed-group-header") ∧
    ((∀ r ∈ g.processes, r.Active__c = true) →
      g.statusText = toString g.processes.length ++ "/" ++
        toString g.processes.length ++ " Active") ∧
    ((∀ r ∈ g.processes, r.Active__c = false) →
      g.statusText = "0/" ++ toString g.processes.length ++ " Active") := by
  have hne : g.processes ≠ [] := (processGroupedData_group_facts hg).2
  rcases mem_processGroupedData hg with ⟨p, hp, rfl⟩
  rw [mkGroup_statusText, mkGroup_headerClass]
  rcases headerOf_classification (mkGroup p).processes hne with ⟨h1, h2, h3⟩
  refine ⟨rfl, h1, h2, h3, ?_, ?_⟩
  · intro hAll
    have hfilter : (mkGroup p).processes.filter (fun r => r.Active__c) =
        (mkGroup p).processes := List.filter_eq_self.mpr hAll
    unfold statusOf
    rw [hfilter]
  · intro hAll
    have hfilter : (mkGroup p).processes.filter (fun r => r.Active__c) = [] :=
      List.filter_eq_nil_iff.mpr (fun a ha => by simp [hAll a ha])
    unfold statusOf
    rw [hfilter]
    rfl

/-- C3 witness: the classification applied to the `G1` group of the spec's
scenario (one active and one inactive member). -/
theorem group_header_classification_witness :
    ((processGroupedData exScenario).headD gdefault).statusText =
      toString (((processGroupedData exScenario).headD gdefault).processes.filter
          (fun r => r.Active__c)).length ++ "/" ++
        toString ((processGroupedData exScenario).headD gdefault).processes.length ++
        " Active" ∧
    ((∀ r ∈ ((processGroupedData exScenario).headD gdefault).processes,
        r.Active__c = true) ↔
      ((processGroupedData exScenario).headD gdefault).headerClass =
        "group-header active-group-header") ∧
    ((∀ r ∈ ((processGroupedData exScenario).headD gdefault).processes,
        r.Active__c = false) ↔
      ((processGroupedData exScenario).headD gdefault).headerClass =
        "group-header inactive-group-header") ∧
    (((∃ r ∈ ((processGroupedData exScenario).headD gdefault).processes,
          r.Active__c = true) ∧
        (∃ r ∈ ((processGroupedData exScenario).headD gdefault).processes,
          r.Active__c = false)) ↔
      ((processGroupedData exScenario).headD gdefault).headerClass =
        "group-header mixed-group-header") ∧
    ((∀ r ∈ ((processGroupedData exScenario).headD gdefault).processes,
        r.Active__c = true) →
      ((processGroupedData exScenario).headD gdefault).statusText =
        toString ((processGroupedData exScenario).headD gdefault).processes.length ++
          "/" ++
          toString ((processGroupedData exScenario).headD gdefault).processes.length ++
          " Active") ∧
    ((∀ r ∈ ((processGroupedData exScenario).headD gdefault).processes,
        r.Active__c = false) →
      ((processGroupedData exScenario).headD gdefault).statusText =
        "0/" ++
          toString ((processGroupedData exScenario).headD gdefault).processes.length ++
          " Active") :=
  group_header_classification exScenario
    ((processGroupedData exScenario).headD gdefault) (by decide)

/-- C4: after a load and any sequence of edits, discarding restores the
working set to the load-time baseline (identifier re-derivation and display
fields recomputed exactly as the load path does), empties the staging map so
`hasChanges` is `false`, and issues no persist call — only an informational
toast. -/
theorem discard_restores_baseline (data : List SRecord)
    (edits : List (String × EditField)) (st0 : SetupState) :
    hasChanges (handleCancelChanges (applyEdits edits (loadData data st0))).1 =
      false ∧
    (handleCancelChanges (applyEdits edits (loadData data st0))).1.processData =
      (loadData data st0).processData ∧
    (handleCancelChanges (applyEdits edits (loadData data st0))).1.originalData =
      (loadData data st0).originalData ∧
    (handleCancelChanges (applyEdits edits (loadData data st0))).2.filter
      isPersistEvent = [] := by
  refine ⟨rfl, ?_, ?_, rfl⟩
  · rw [handleCancelChanges_processData, applyEdits_originalData]
    rfl
  · show (applyEdits edits (loadData data st0)).originalData =
      (loadData data st0).originalData
    rw [applyEdits_originalData]

/-- When the staging map is non-empty, a resolved save emits exactly one
persist call, carrying exactly the staged snapshots, regardless of outcome. -/
theorem handleSaveChanges_persist_events (outcome : SaveOutcome)
    (st : SetupState) (hne : st.changedRecords ≠ []) :
    (handleSaveChanges outcome st).2.filter isPersistEvent =
      [Event.persist (st.changedRecords.map Prod.snd)] := by
  have hie : st.changedRecords.isEmpty = false := List.isEmpty_eq_false.mpr hne
  unfold handleSaveChanges
  rw [if_neg (by simp [hie])]
  cases outcome <;> simp [startSave, resolveSave, isPersistEvent]

/-- C5: after a load (with distinct derived identifiers) and any sequence of
edits, the staging map has at most one entry per identifier, each entry is
exactly the current working record carrying that identifier (the full
snapshot of the latest edit, never a merge), and a save sends exactly these
snapshots as the single batch persist call. -/
theorem staging_latest_snapshots (data : List SRecord)
    (edits : List (String × EditField)) (st0 : SetupState)
    (outcome : SaveOutcome)
    (hnodup : (((loadData data st0).processData).map (fun r => r.Id)).Nodup) :
    ((applyEdits edits (loadData data st0)).changedRecords.map Prod.fst).Nodup ∧
    (∀ p ∈ (applyEdits edits (loadData data st0)).changedRecords,
      (applyEdits edits (loadData data st0)).processData.find?
        (fun r => decide (r.Id = some p.1)) = some p.2) ∧
    ((applyEdits edits (loadData data st0)).changedRecords ≠ [] →
      (handleSaveChanges outcome
          (applyEdits edits (loadData data st0))).2.filter isPersistEvent =
        [Event.persist
          ((applyEdits edits (loadData data st0)).changedRecords.map
            Prod.snd)]) := by
  have hinv := stagingInv_applyEdits edits (loadData data st0)
    (stagingInv_loadData data st0 hnodup)
  exact ⟨hinv.2.1, hinv.2.2,
    fun hne => handleSaveChanges_persist_events outcome _ hne⟩

/-- C5 witness: two edits to the same record and one to another, on a
two-record load. -/
theorem staging_latest_snapshots_witness :
    ((applyEdits [("A", EditField.Order__c "7"), ("A", EditField.Name "A2"),
        ("B", EditField.Active__c false)]
        (loadData [mkRec "A" true (some "G") (OrderVal.num 1),
          mkRec "B" true (some "G") (OrderVal.num 2)]
          blankState)).changedRecords.map Prod.fst).Nodup ∧
    (∀ p ∈ (applyEdits [("A", EditField.Order__c "7"),
        ("A", EditField.Name "A2"), ("B", EditField.Active__c false)]
        (loadData [mkRec "A" true (some "G") (OrderVal.num 1),
          mkRec "B" true (some "G") (OrderVal.num 2)]
          blankState)).changedRecords,
      (applyEdits [("A", EditField.Order__c "7"), ("A", EditField.Name "A2"),
        ("B", EditField.Active__c false)]
        (loadData [mkRec "A" true (some "G") (OrderVal.num 1),
          mkRec "B" true (some "G") (OrderVal.num 2)]
          blankState)).processData.find?
        (fun r => decide (r.Id = some p.1)) = some p.2) ∧
    ((applyEdits [("A", EditField.Order__c "7"), ("A", EditField.Name "A2"),
        ("B", EditField.Active__c false)]
        (loadData [mkRec "A" true (some "G") (OrderVal.num 1),
          mkRec "B" true (some "G") (OrderVal.num 2)]
          blankState)).changedRecords ≠ [] →
      (handleSaveChanges (SaveOutcome.failure "boom")
          (applyEdits [("A", EditField.Order__c "7"),
            ("A", EditField.Name "A2"), ("B", EditField.Active__c false)]
            (loadData [mkRec "A" true (some "G") (OrderVal.num 1),
              mkRec "B" true (some "G") (OrderVal.num 2)]
              blankState))).2.filter isPersistEvent =
        [Event.persist
          ((applyEdits [("A", EditField.Order__c "7"),
            ("A", EditField.Name "A2"), ("B", EditField.Active__c false)]
            (loadData [mkRec "A" true (some "G") (OrderVal.num 1),
              mkRec "B" true (some "G") (OrderVal.num 2)]
              blankState)).changedRecords.map Prod.snd)]) :=
  staging_latest_snapshots
    [mkRec "A" true (some "G") (OrderVal.num 1),
     mkRec "B" true (some "G") (OrderVal.num 2)]
    [("A", EditField.Order__c "7"), ("A", EditField.Name "A2"),
     ("B", EditField.Active__c false)]
    blankState (SaveOutcome.failure "boom") (by decide)

/-- C6: when the batch persist fails, the widget state (working set, staging
map, baseline, projection and loading flag) is exactly as before the commit
attempt, and the emitted effects are the persist attempt followed by an error
toast carrying the service-provided message. -/
theorem save_failure_keeps_state (st : SetupState) (msg : String)
    (hne : st.changedRecords ≠ []) (hld : st.isLoading = false) :
    (handleSaveChanges (SaveOutcome.failure msg) st).1 = st ∧
    (handleSaveChanges (SaveOutcome.failure msg) st).2 =
      [Event.persist (st.changedRecords.map Prod.snd),
       Event.toast "Error" ("Error updating records: " ++ msg) "error"] := by
  have hie : st.changedRecords.isEmpty = false := List.isEmpty_eq_false.mpr hne
  unfold handleSaveChanges
  rw [if_neg (by simp [hie])]
  refine ⟨?_, rfl⟩
  show ({ st with isLoading := false } : SetupState) = st
  cases st with
  | mk o p g c il =>
      simp only at hld
      rw [hld]

/-- C6 witness: a failing save on a one-record staged state with the loading
flag clear. -/
theorem save_failure_keeps_state_witness :
    (handleSaveChanges (SaveOutcome.failure "boom")
        { blankState with
            changedRecords := [("A", mkRec "A" true (some "G") (OrderVal.num 1))] }).1 =
      { blankState with
          changedRecords := [("A", mkRec "A" true (some "G") (OrderVal.num 1))] } ∧
    (handleSaveChanges (SaveOutcome.failure "boom")
        { blankState with
            changedRecords := [("A", mkRec "A" true (some "G") (OrderVal.num 1))] }).2 =
      [Event.persist [mkRec "A" true (some "G") (OrderVal.num 1)],
       Event.toast "Error" ("Error updating records: " ++ "boom") "error"] :=
  save_failure_keeps_state
    { blankState with
        changedRecords := [("A", mkRec "A" true (some "G") (OrderVal.num 1))] }
    "boom" (by decide) rfl

/-- C7 counterexample: the claim that a malformed order value makes the record
sort last in its group fails: editing `M`'s order to `"abc"` stages
`parseInt('abc') = NaN`, whose `|| 999` fallback is the sentinel `999`, and a
sibling with order `1000` exceeds the sentinel, so the malformed record sorts
first, not last. -/
theorem malformed_order_counterexample :
    (∃ g ∈ processGroupedData
        (handleTableEdit "M" (EditField.Order__c "abc") stMalformed).processData,
      ¬ g.processes.Pairwise
        (fun a b => nonNumericOrder a = true → nonNumericOrder b = true)) ∧
    (processGroupedData
        (handleTableEdit "M" (EditField.Order__c "abc") stMalformed).processData).map
        (fun g => g.processes.map (fun r => (r.Name, r.Order__c))) =
      [[("M", OrderVal.nan), ("Z", OrderVal.num 1000)]] := by
  constructor
  · decide
  · decide

/-- C7 (amended): an edit of the order field with a non-empty input string is
passed through `parseInt` before staging (malformed input yields `NaN`); the
grouped recompute is total on such values and gives a malformed, empty or
absent order the same effective sort key, the sentinel `999` — so the record
stays in the projection and sorts after every member whose effective order is
below the sentinel, though not after orders above it. -/
theorem order_edit_parse_malformed_amended (rid v : String) (st : SetupState)
    (l : List SRecord) (hv : v ≠ "") :
    (handleTableEdit rid (EditField.Order__c v) st).processData =
      st.processData.map
        (fun r => if r.Id = some rid then { r with Order__c := parseIntJs v }
          else r) ∧
    orFallback OrderVal.nan = 999 ∧ orFallback OrderVal.emptyStr = 999 ∧
    orFallback OrderVal.null = 999 ∧
    List.Perm ((processGroupedData l).map (fun g => g.processes)).flatten
      (l.map annotate) ∧
    (∀ g ∈ processGroupedData l, g.processes.Pairwise
      (fun a b => orFallback a.Order__c ≤ orFallback b.Order__c)) := by
  refine ⟨?_, rfl, rfl, rfl, processGroupedData_flatten_perm l, ?_⟩
  · unfold handleTableEdit
    simp only [editPass_fst]
    refine List.map_congr_left ?_
    intro r _
    by_cases hr : r.Id = some rid
    · rw [if_pos hr, if_pos hr]
      simp only [applyField]
      rw [if_neg hv]
    · rw [if_neg hr, if_neg hr]
  · intro g hg
    exact (processGroupedData_sorted hg).1

/-- C7 witness: the malformed edit `"abc"` on the two-record state, with the
shared projection facts taken on the spec's sort example. -/
theorem order_edit_parse_malformed_witness :
    (handleTableEdit "M" (EditField.Order__c "abc") stMalformed).processData =
      stMalformed.processData.map
        (fun r => if r.Id = some "M" then
          { r with Order__c := parseIntJs "abc" } else r) ∧
    orFallback OrderVal.nan = 999 ∧ orFallback OrderVal.emptyStr = 999 ∧
    orFallback OrderVal.null = 999 ∧
    List.Perm ((processGroupedData exOrders).map (fun g => g.processes)).flatten
      (exOrders.map annotate) ∧
    (∀ g ∈ processGroupedData exOrders, g.processes.Pairwise
      (fun a b => orFallback a.Order__c ≤ orFallback b.Order__c)) :=
  order_edit_parse_malformed_amended "M" "abc" stMalformed exOrders (by decide)

/-- C8: while a persist is pending the loading flag is set, and a save click
arriving in that window leaves the state unchanged and emits nothing — in
particular no second persist call.  The click-level gate is modelled from the
spec because the disabling template is not among the provided sources. -/
theorem no_second_persist_while_pending (outcome : SaveOutcome)
    (st : SetupState) (h : st.isLoading = true) :
    saveButtonClick outcome st = (st, []) ∧
    (startSave st).1.isLoading = true := by
  constructor
  · unfold saveButtonClick
    rw [if_pos h]
  · rfl

/-- C8 witness: a click during a pending save on a staged one-record state. -/
theorem no_second_persist_while_pending_witness :
    saveButtonClick (SaveOutcome.failure "late")
        { blankState with
            changedRecords := [("A", mkRec "A" true (some "G") (OrderVal.num 1))],
            isLoading := true } =
      ({ blankState with
          changedRecords := [("A", mkRec "A" true (some "G") (OrderVal.num 1))],
          isLoading := true }, []) ∧
    (startSave
        { blankState with
            changedRecords := [("A", mkRec "A" true (some "G") (OrderVal.num 1))],
            isLoading := true }).1.isLoading = true :=
  no_second_persist_while_pending (SaveOutcome.failure "late")
    { blankState with
        changedRecords := [("A", mkRec "A" true (some "G") (OrderVal.num 1))],
        isLoading := true } rfl

/-- C9: on save, the process-variables widget sends a non-empty in-edit
timestamp of the form `yyyy-MM-ddTHH:mm` (16 characters, lacking seconds) to
the persist service with `":00"` appended, and sends `null` for an empty
in-edit timestamp. -/
theorem timestamp_seconds_appended (st st2 : PVState)
    (h : isDateTimeLocalNoSeconds st.editSerialEngineTimestamp = true)
    (h2 : st2.editSerialEngineTimestamp = "") :
    pvHandleSave st =
      [Event.persistVars st.editSerialEngineOn
        (some (st.editSerialEngineTimestamp ++ ":00")),
       Event.toast "Saved" "Process variables updated" "success"] ∧
    pvHandleSave st2 =
      [Event.persistVars st2.editSerialEngineOn none,
       Event.toast "Saved" "Process variables updated" "success"] := by
  constructor
  · unfold pvHandleSave
    rw [ensureSeconds_noSeconds h]
  · unfold pvHandleSave
    rw [h2]
    rfl

/-- C9 witness: a saved edit of `2026-01-15T10:30` and an empty edit. -/
theorem timestamp_seconds_appended_witness :
    pvHandleSave
        { serialEngineOn := true, editSerialEngineOn := true,
          editSerialEngineTimestamp := "2026-01-15T10:30" } =
      [Event.persistVars true (some ("2026-01-15T10:30" ++ ":00")),
       Event.toast "Saved" "Process variables updated" "success"] ∧
    pvHandleSave
        { serialEngineOn := false, editSerialEngineOn := false,
          editSerialEngineTimestamp := "" } =
      [Event.persistVars false none,
       Event.toast "Saved" "Process variables updated" "success"] :=
  timestamp_seconds_appended
    { serialEngineOn := true, editSerialEngineOn := true,
      editSerialEngineTimestamp := "2026-01-15T10:30" }
    { serialEngineOn := false, editSerialEngineOn := false,
      editSerialEngineTimestamp := "" }
    (by decide) rfl

/-- C10: an edit targeting a known identifier leaves the load-time baseline
untouched, and every working record stored at a position whose record does
not carry the targeted identifier is unchanged in all fields. -/
theorem edit_frames_other_records (rid : String) (e : EditField)
    (st : SetupState) (hknown : ∃ r ∈ st.processData, r.Id = some rid) :
    (handleTableEdit rid e st).originalData = st.originalData ∧
    (handleTableEdit rid e st).processData.length = st.processData.length ∧
    (∀ i : Nat, ∀ r : SRecord, st.processData[i]? = some r →
      r.Id ≠ some rid → (handleTableEdit rid e st).processData[i]? = some r) := by
  refine ⟨rfl, ?_, ?_⟩
  · show (editPass rid (applyField e) st.processData st.changedRecords).1.length =
      st.processData.length
    rw [editPass_fst]
    exact List.length_map _ _
  · intro i r hi hne
    show (editPass rid (applyField e) st.processData st.changedRecords).1[i]? =
      some r
    rw [editPass_fst, List.getElem?_map, hi]
    simp only [Option.map_some']
    rw [if_neg hne]

/-- C10 witness: editing record `A` of a two-record working set. -/
theorem edit_frames_other_records_witness :
    (handleTableEdit "A" (EditField.Name "A2")
        { blankState with
            processData := [mkRec "A" true (some "G") (OrderVal.num 1),
              mkRec "B" true (some "G") (OrderVal.num 2)] }).originalData =
      ({ blankState with
          processData := [mkRec "A" true (some "G") (OrderVal.num 1),
            mkRec "B" true (some "G") (OrderVal.num 2)] } :
        SetupState).originalData ∧
    (handleTableEdit "A" (EditField.Name "A2")
        { blankState with
            processData := [mkRec "A" true (some "G") (OrderVal.num 1),
              mkRec "B" true (some "G") (OrderVal.num 2)] }).processData.length =
      ({ blankState with
          processData := [mkRec "A" true (some "G") (OrderVal.num 1),
            mkRec "B" true (some "G") (OrderVal.num 2)] } :
        SetupState).processData.length ∧
    (∀ i : Nat, ∀ r : SRecord,
      ({ blankState with
          processData := [mkRec "A" true (some "G") (OrderVal.num 1),
            mkRec "B" true (some "G") (OrderVal.num 2)] } :
        SetupState).processData[i]? = some r →
      r.Id ≠ some "A" →
      (handleTableEdit "A" (EditField.Name "A2")
          { blankState with
              processData := [mkRec "A" true (some "G") (OrderVal.num 1),
                mkRec "B" true (some "G") (OrderVal.num 2)] }).processData[i]? =
        some r) :=
  edit_frames_other_records "A" (EditField.Name "A2")
    { blankState with
        processData := [mkRec "A" true (some "G") (OrderVal.num 1),
          mkRec "B" true (some "G") (OrderVal.num 2)] }
    (by decide)

/-- C1 witness: the partition facts instantiated on the spec's two-group
scenario. -/
theorem grouped_view_partition_witness :
    List.Perm ((processGroupedData exScenario).map (fun g => g.processes)).flatten
      (exScenario.map annotate) ∧
    (∀ g ∈ processGroupedData exScenario, ∀ r ∈ g.processes,
      groupNameOf r = g.groupName) ∧
    (∀ g ∈ processGroupedData exScenario, g.processes ≠ []) ∧
    (∀ g1 ∈ processGroupedData exScenario, ∀ g2 ∈ processGroupedData exScenario,
      ∀ r : SRecord, r ∈ g1.processes → r ∈ g2.processes → g1 = g2) ∧
    ((processGroupedData exScenario).map (fun g => g.groupName)).Pairwise
      (fun a b => strLt a b = true) :=
  grouped_view_partition exScenario

/-- C4 witness: an edit and a discard on a two-record load. -/
theorem discard_restores_baseline_witness :
    hasChanges (handleCancelChanges (applyEdits [("A", EditField.Name "A2")]
        (loadData [mkRec "A" true (some "G") (OrderVal.num 1),
          mkRec "B" true (some "G") (OrderVal.num 2)] blankState))).1 = false ∧
    (handleCancelChanges (applyEdits [("A", EditField.Name "A2")]
        (loadData [mkRec "A" true (some "G") (OrderVal.num 1),
          mkRec "B" true (some "G") (OrderVal.num 2)] blankState))).1.processData =
      (loadData [mkRec "A" true (some "G") (OrderVal.num 1),
        mkRec "B" true (some "G") (OrderVal.num 2)] blankState).processData ∧
    (handleCancelChanges (applyEdits [("A", EditField.Name "A2")]
        (loadData [mkRec "A" true (some "G") (OrderVal.num 1),
          mkRec "B" true (some "G") (OrderVal.num 2)] blankState))).1.originalData =
      (loadData [mkRec "A" true (some "G") (OrderVal.num 1),
        mkRec "B" true (some "G") (OrderVal.num 2)] blankState).originalData ∧
    (handleCancelChanges (applyEdits [("A", EditField.Name "A2")]
        (loadData [mkRec "A" true (some "G") (OrderVal.num 1),
          mkRec "B" true (some "G") (OrderVal.num 2)] blankState))).2.filter
      isPersistEvent = [] :=
  discard_restores_baseline
    [mkRec "A" true (some "G") (OrderVal.num 1),
     mkRec "B" true (some "G") (OrderVal.num 2)]
    [("A", EditField.Name "A2")] blankState
